import Mathlib

/-!
Verification of the disc-discovery utility `Optimize-Disc.py`.

The script has two operations:
* `extract_archive(archive)` — opens an archive with `py7zr.SevenZipFile`
  and calls `extractall()`, with a bare `except:` that prints
  `"Error extracting " + archive`;
* `search_path_for_discs(path)` — if `path` is a directory, walks the full
  subtree with `os.walk` and collects `os.path.join(root, file)` for every
  file whose name ends with a supported disc extension; if `path` is a file
  whose name ends with a supported archive extension, lists the archive
  entry names with `getnames()` and collects those ending with a supported
  disc extension; otherwise it returns the empty list;
followed by a module-level CLI that scans the current directory (no
argument) or `sys.argv[1]` and prints one summary line.

The filesystem is modelled abstractly: a classification map
`String → FileObj` says for each path whether `os.path.isdir` holds (with
the directory's subtree), `os.path.isfile` holds (with the archive
listing the external py7zr library would report), or neither.  The py7zr
calls made by `extract_archive` are modelled by a map `String → OpenResult`
giving the outcome of opening, and of `extractall()`, for each path.
-/

/-- Python `s.endswith(ext)` for a single suffix: exact, case-sensitive
character-level suffix test, modelled on the string's character list. -/
def strEndsWith (s ext : String) : Bool :=
  ext.data.isSuffixOf s.data

/-- The `supported_discs` tuple of `search_path_for_discs`
(`('.iso', '.bin', '.cue', '.gdi', '.raw', '.chd')`). -/
def supported_discs : List String :=
  [".iso", ".bin", ".cue", ".gdi", ".raw", ".chd"]

/-- The `supported_archives` tuple of `search_path_for_discs`
(`('.7z', '.gz', '.rar', '.zip')`). -/
def supported_archives : List String :=
  [".7z", ".gz", ".rar", ".zip"]

/-- Python `name.endswith(supported_discs)`: the name ends with at least one
suffix of the tuple. -/
def hasDiscSuffix (s : String) : Bool :=
  supported_discs.any (fun ext => strEndsWith s ext)

/-- Python `path.endswith(supported_archives)`. -/
def hasArchiveSuffix (s : String) : Bool :=
  supported_archives.any (fun ext => strEndsWith s ext)

/-- A directory subtree: the names of the plain files directly inside it and
the named subdirectories, each with its own subtree. -/
inductive DirTree where
  | mk (files : List String) (subdirs : List (String × DirTree))

/-- `os.path.join(root, name)` for a relative member `name` (the only shape
`os.walk` produces): drop an empty `root`, and insert a `/` separator
unless `root` already ends with one. -/
def pathJoin (a b : String) : String :=
  if a = "" then b
  else if strEndsWith a "/" then a ++ b
  else a ++ "/" ++ b

mutual

/-- `os.walk(root)` over the modelled subtree: the top-down sequence of
`(dirpath, dirnames, filenames)` triples, the current directory first,
then the full walks of its subdirectories in order. -/
def DirTree.walk (root : String) : DirTree → List (String × List String × List String)
  | .mk files subdirs =>
      (root, subdirs.map Prod.fst, files) :: DirTree.walkAll root subdirs

/-- The concatenated `os.walk` sequences of a list of named subdirectories
of `root`. -/
def DirTree.walkAll (root : String) : List (String × DirTree) → List (String × List String × List String)
  | [] => []
  | (d, t) :: rest => DirTree.walk (pathJoin root d) t ++ DirTree.walkAll root rest

end

/-- What the filesystem says about one path: an existing directory with its
subtree (`os.path.isdir` true), an existing regular file together with the
entry names `py7zr` would list for it (`os.path.isfile` true), or a path
that exists as neither. -/
inductive FileObj where
  | dir (tree : DirTree)
  | file (entries : List String)
  | missing

/-- `search_path_for_discs(path)` (lines 17–35 of `Optimize-Disc.py`) over a
filesystem modelled by the classification map `fs`:

* `os.path.isdir(path)`: for each `(root, dirs, files)` of `os.walk(path)`
  and each `file` in `files` with `file.endswith(supported_discs)`, append
  `os.path.join(root, file)`;
* `os.path.isfile(path)` and `path.endswith(supported_archives)`: extend
  with the entries of `archive.getnames()` that end with a disc suffix;
* otherwise the list stays empty. -/
def search_path_for_discs (fs : String → FileObj) (path : String) : List String :=
  match fs path with
  | .dir t =>
      ((DirTree.walk path t).map
        (fun rdf => (rdf.2.2.filter hasDiscSuffix).map (fun f => pathJoin rdf.1 f))).flatten
  | .file entries =>
      if hasArchiveSuffix path then entries.filter hasDiscSuffix else []
  | .missing => []

/-- Outcome of `extractall()` once the archive is open: either it raises
(I/O error, corrupt member, …) or it extracts its entries, each a relative
path inside the archive paired with its content. -/
inductive ExtractallResult where
  | ioError
  | extracted (entries : List (String × String))
deriving DecidableEq

/-- Outcome of `py7zr.SevenZipFile(path, mode='r')`: the open itself raises
(missing file, not a valid archive, …) or it succeeds, with the behaviour
`extractall()` would then have. -/
inductive OpenResult where
  | openError
  | opened (r : ExtractallResult)
deriving DecidableEq

/-- Outcome of running a Python function: a normal return or an uncaught
exception escaping it, together with the lines printed and the working
directory contents (most recent write first). -/
inductive PyOutcome where
  | normal (printed : List String) (cwd : List (String × String))
  | raised (exc : String) (printed : List String) (cwd : List (String × String))
deriving DecidableEq

/-- `extract_archive(archive)` (lines 10–15 of `Optimize-Disc.py`).  The
`with py7zr.SevenZipFile(archive, mode='r') as archive:` statement rebinds
the name `archive` to the `SevenZipFile` object, so the three outcomes of
the Python code are:

* the open raises: the name `archive` still holds the string parameter and
  the handler prints `"Error extracting " + archive`;
* the open succeeds but `extractall()` raises: the handler evaluates
  `"Error extracting " + archive` with `archive` bound to the
  `SevenZipFile` object, a `str + SevenZipFile` concatenation that raises
  `TypeError` out of the handler — nothing is printed and the exception
  escapes `extract_archive`;
* `extractall()` succeeds: every entry is written into the current working
  directory at its relative path inside the archive. -/
def extract_archive (lib : String → OpenResult) (archive : String)
    (cwd : List (String × String)) : PyOutcome :=
  match lib archive with
  | .openError =>
      .normal ["Error extracting " ++ archive] cwd
  | .opened .ioError =>
      .raised "TypeError" [] cwd
  | .opened (.extracted entries) =>
      .normal [] (entries.foldl (fun m e => e :: m) cwd)

/-- The module-level CLI (lines 38–49): with no positional argument it scans
`os.getcwd()`, otherwise `sys.argv[1]`; it prints one line, chosen by
`if len(...) == 0: ... elif len(...) > 0: ...`.  `args` is `sys.argv[1:]`.
The Python code re-runs `search_path_for_discs` for the test and again for
the message; the calls are pure in a fixed state, so one result is used. -/
def cliMain (fs : String → FileObj) (cwd : String) (args : List String) : List String :=
  match args with
  | [] =>
      let n := (search_path_for_discs fs cwd).length
      if n = 0 then ["No supported disc files found in current directory"]
      else if n > 0 then
        ["Found " ++ toString n ++ " supported disc files in current directory"]
      else []
  | p :: _ =>
      let n := (search_path_for_discs fs p).length
      if n = 0 then ["No supported disc files found in " ++ p]
      else if n > 0 then
        ["Found " ++ toString n ++ " supported disc files in " ++ p]
      else []

mutual

/-- Specification-side view, from the spec's words: the
`(containing directory, filename)` pairs of every file in the full subtree
of `root`, at any nesting depth, in traversal order. -/
def DirTree.subtreeFiles (root : String) : DirTree → List (String × String)
  | .mk files subdirs =>
      files.map (fun f => (root, f)) ++ DirTree.subtreeFilesAll root subdirs

/-- The files of the subtrees of a list of named subdirectories of `root`. -/
def DirTree.subtreeFilesAll (root : String) : List (String × DirTree) → List (String × String)
  | [] => []
  | (d, t) :: rest =>
      DirTree.subtreeFiles (pathJoin root d) t ++ DirTree.subtreeFilesAll root rest

end

/-- The filesystem and archive operations one call of
`search_path_for_discs` performs, read off its source lines:
`os.path.isdir`, `os.walk`, `os.path.isfile`,
`py7zr.SevenZipFile(path, mode='r')`, `getnames()`; and, for contrast, the
writing operations an extraction would perform (`extractall`, file
writes), which `search_path_for_discs` never issues. -/
inductive FsOp where
  | statDir (p : String)
  | statFile (p : String)
  | walkTree (p : String)
  | openRead (p : String)
  | listEntries (p : String)
  | extractAllTo (p : String)
  | writeFile (p : String) (name : String)
deriving DecidableEq

/-- Whether an operation writes to the filesystem. -/
def FsOp.writes : FsOp → Bool
  | .extractAllTo _ => true
  | .writeFile _ _ => true
  | _ => false

/-- The ordered trace of operations `search_path_for_discs(path)` issues:
`os.path.isdir(path)` first; in the directory branch `os.walk(path)`;
otherwise `os.path.isfile(path)`, and in the supported-archive branch the
read-only open followed by `getnames()`. -/
def searchOps (fs : String → FileObj) (path : String) : List FsOp :=
  match fs path with
  | .dir _ => [.statDir path, .walkTree path]
  | .file _ =>
      [.statDir path, .statFile path] ++
        (if hasArchiveSuffix path then [.openRead path, .listEntries path] else [])
  | .missing => [.statDir path, .statFile path]

/-! ## Helper lemmas -/

/-- Unfolding of `search_path_for_discs` in the existing-directory branch. -/
theorem search_dir_eq (fs : String → FileObj) (path : String) (t : DirTree)
    (h : fs path = FileObj.dir t) :
    search_path_for_discs fs path
      = ((DirTree.walk path t).map
          (fun rdf => (rdf.2.2.filter hasDiscSuffix).map (fun f => pathJoin rdf.1 f))).flatten := by
  simp only [search_path_for_discs, h]

/-- Unfolding of `search_path_for_discs` in the existing-regular-file branch. -/
theorem search_file_eq (fs : String → FileObj) (path : String) (entries : List String)
    (h : fs path = FileObj.file entries) :
    search_path_for_discs fs path
      = if hasArchiveSuffix path then entries.filter hasDiscSuffix else [] := by
  simp only [search_path_for_discs, h]

/-- Unfolding of `search_path_for_discs` on a path that exists as neither a
directory nor a regular file. -/
theorem search_missing_eq (fs : String → FileObj) (path : String)
    (h : fs path = FileObj.missing) :
    search_path_for_discs fs path = [] := by
  simp only [search_path_for_discs, h]

/-- Filtering the `(directory, name)` pairs of one directory by name and
joining equals filtering the names and joining. -/
theorem filter_map_pair (root : String) (files : List String) :
    ((files.map (fun f => ((root, f) : String × String))).filter
        (fun p => hasDiscSuffix p.2)).map (fun p => pathJoin p.1 p.2)
      = (files.filter hasDiscSuffix).map (fun f => pathJoin root f) := by
  induction files with
  | nil => rfl
  | cons f rest ih =>
      cases h : hasDiscSuffix f <;> simp [List.filter_cons, h, ih]

mutual

/-- The flattened per-directory disc collection of `os.walk` equals the
filtered-and-joined file pairs of the full subtree. -/
theorem walk_eq_subtreeFiles (root : String) (t : DirTree) :
    ((DirTree.walk root t).map
        (fun rdf => (rdf.2.2.filter hasDiscSuffix).map (fun f => pathJoin rdf.1 f))).flatten
      = ((DirTree.subtreeFiles root t).filter (fun p => hasDiscSuffix p.2)).map
          (fun p => pathJoin p.1 p.2) := by
  match t with
  | .mk files subdirs =>
      simp only [DirTree.walk, DirTree.subtreeFiles, List.map_cons, List.flatten_cons,
        List.filter_append, List.map_append, filter_map_pair]
      rw [walkAll_eq_subtreeFilesAll root subdirs]

/-- List version of `walk_eq_subtreeFiles` over the named subdirectories. -/
theorem walkAll_eq_subtreeFilesAll (root : String) (l : List (String × DirTree)) :
    ((DirTree.walkAll root l).map
        (fun rdf => (rdf.2.2.filter hasDiscSuffix).map (fun f => pathJoin rdf.1 f))).flatten
      = ((DirTree.subtreeFilesAll root l).filter (fun p => hasDiscSuffix p.2)).map
          (fun p => pathJoin p.1 p.2) := by
  match l with
  | [] => rfl
  | (d, t) :: rest =>
      simp only [DirTree.walkAll, DirTree.subtreeFilesAll, List.map_append,
        List.flatten_append, List.filter_append]
      rw [walk_eq_subtreeFiles (pathJoin root d) t, walkAll_eq_subtreeFilesAll root rest]

end

/-! ## Claims -/

/-- C1: for every existing directory `D`, `search_path_for_discs(D)` returns
exactly the files of the full subtree of `D` (any nesting depth) whose name
ends with a supported disc suffix, each as its containing directory joined
with its filename, and no other files. -/
theorem search_path_for_discs_dir_exact (fs : String → FileObj) (path : String)
    (t : DirTree) (h : fs path = FileObj.dir t) :
    search_path_for_discs fs path
      = ((DirTree.subtreeFiles path t).filter (fun p => hasDiscSuffix p.2)).map
          (fun p => pathJoin p.1 p.2) :=
  (search_dir_eq fs path t h).trans (walk_eq_subtreeFiles path t)

/-- The directory used to witness C1. -/
def treeC1 : DirTree :=
  DirTree.mk ["a.iso", "x.txt"] [("sub", DirTree.mk ["b.cue"] [])]

/-- A filesystem with the directory `d` holding `a.iso`, `x.txt` and a
subdirectory `sub` holding `b.cue`. -/
def fsC1 : String → FileObj := fun p =>
  if p = "d" then FileObj.dir treeC1 else FileObj.missing

/-- Witness for C1 on a concrete two-level directory. -/
theorem search_path_for_discs_dir_exact_witness :
    search_path_for_discs fsC1 "d" = ["d/a.iso", "d/sub/b.cue"] :=
  (search_path_for_discs_dir_exact fsC1 "d" treeC1 rfl).trans (by decide)

/-- C2: on an existing regular file whose name has a supported archive
suffix, `search_path_for_discs` returns exactly the archive's listed entry
names that end with a supported disc suffix. -/
theorem search_path_for_discs_archive_listing (fs : String → FileObj) (path : String)
    (entries : List String) (h : fs path = FileObj.file entries)
    (ha : hasArchiveSuffix path = true) :
    search_path_for_discs fs path = entries.filter hasDiscSuffix := by
  rw [search_file_eq fs path entries h, ha]
  simp

/-- The archive file `a.zip` whose listing is
`["game.iso", "readme.txt", "track.bin"]`. -/
def fsC2 : String → FileObj := fun p =>
  if p = "a.zip" then FileObj.file ["game.iso", "readme.txt", "track.bin"]
  else FileObj.missing

/-- Witness for C2 on the `a.zip` example of the specification. -/
theorem search_path_for_discs_archive_listing_witness :
    search_path_for_discs fsC2 "a.zip" = ["game.iso", "track.bin"] :=
  (search_path_for_discs_archive_listing fsC2 "a.zip"
    ["game.iso", "readme.txt", "track.bin"] rfl (by decide)).trans (by decide)

/-- C4: a path that does not exist, and an existing regular file without a
supported archive suffix, both give the empty result, and the function is
total there (no exception is modelled or needed on these branches). -/
theorem search_path_for_discs_empty_cases (fs : String → FileObj) (path : String) :
    (fs path = FileObj.missing → search_path_for_discs fs path = []) ∧
    (∀ entries, fs path = FileObj.file entries → hasArchiveSuffix path = false →
      search_path_for_discs fs path = []) := by
  constructor
  · intro h
    exact search_missing_eq fs path h
  · intro entries h ha
    rw [search_file_eq fs path entries h, ha]
    simp

/-- A filesystem with a single regular file `notes.txt` (not an archive). -/
def fsC4 : String → FileObj := fun p =>
  if p = "notes.txt" then FileObj.file ["inner.iso"] else FileObj.missing

/-- Witness for C4: a missing path and an unsupported regular file. -/
theorem search_path_for_discs_empty_cases_witness :
    search_path_for_discs fsC4 "gone" = [] ∧
    search_path_for_discs fsC4 "notes.txt" = [] :=
  ⟨(search_path_for_discs_empty_cases fsC4 "gone").1 rfl,
   (search_path_for_discs_empty_cases fsC4 "notes.txt").2 ["inner.iso"] rfl (by decide)⟩

/-- A name's disc suffix survives `os.path.join`: the name is a character
suffix of the joined path. -/
theorem hasDiscSuffix_pathJoin (a b : String) (h : hasDiscSuffix b = true) :
    hasDiscSuffix (pathJoin a b) = true := by
  simp only [hasDiscSuffix, List.any_eq_true] at h ⊢
  obtain ⟨ext, hmem, hsuf⟩ := h
  refine ⟨ext, hmem, ?_⟩
  simp only [strEndsWith, List.isSuffixOf_iff_suffix] at hsuf ⊢
  have hb : b.data <:+ (pathJoin a b).data := by
    unfold pathJoin
    split
    · exact List.suffix_refl _
    · split
      · simp only [String.data_append]
        exact List.suffix_append _ _
      · simp only [String.data_append]
        exact List.suffix_append _ _
  exact hsuf.trans hb

/-- C5: every string in any result of `search_path_for_discs` ends with one
of the supported disc suffixes, under the exact case-sensitive suffix test;
and the test itself rejects the upper-case name `GAME.ISO`. -/
theorem search_path_for_discs_suffix_invariant :
    (∀ (fs : String → FileObj) (path s : String),
        s ∈ search_path_for_discs fs path → hasDiscSuffix s = true) ∧
    hasDiscSuffix "GAME.ISO" = false := by
  constructor
  · intro fs path s hs
    rcases h : fs path with t | entries | _
    · rw [search_dir_eq fs path t h, walk_eq_subtreeFiles path t] at hs
      obtain ⟨p, hp, rfl⟩ := List.mem_map.mp hs
      exact hasDiscSuffix_pathJoin p.1 p.2 (List.mem_filter.mp hp).2
    · rw [search_file_eq fs path entries h] at hs
      by_cases ha : hasArchiveSuffix path
      · rw [if_pos ha] at hs
        exact (List.mem_filter.mp hs).2
      · rw [if_neg ha] at hs
        exact absurd hs (List.not_mem_nil s)
    · rw [search_missing_eq fs path h] at hs
      exact absurd hs (List.not_mem_nil s)
  · decide

/-- A filesystem with a directory `root` holding `game.iso` and `GAME.ISO`. -/
def fsC5 : String → FileObj := fun p =>
  if p = "root" then FileObj.dir (DirTree.mk ["game.iso", "GAME.ISO"] [])
  else FileObj.missing

/-- Witness for C5: the one result of scanning `root` carries a disc suffix
(the upper-case `GAME.ISO` is not collected). -/
theorem search_path_for_discs_suffix_invariant_witness :
    hasDiscSuffix "root/game.iso" = true ∧ hasDiscSuffix "GAME.ISO" = false :=
  ⟨search_path_for_discs_suffix_invariant.1 fsC5 "root" "root/game.iso" (by decide),
   search_path_for_discs_suffix_invariant.2⟩

/-- Archive outcomes for C3: opening `corrupt.7z` itself fails; every other
path opens but fails during `extractall()`. -/
def libC3 : String → OpenResult := fun p =>
  if p = "corrupt.7z" then OpenResult.openError
  else OpenResult.opened ExtractallResult.ioError

/-- C3 (code bug): when the open of `corrupt.7z` fails, the handler prints
the message naming the path and nothing escapes — but when `extractall()`
fails after a successful open, the handler's `"Error extracting " + archive`
concatenates the string with the `SevenZipFile` object the `with` statement
rebound `archive` to, so a `TypeError` escapes `extract_archive` and no
message naming the path is printed, contrary to the claim. -/
theorem extract_archive_handler_typeerror :
    extract_archive libC3 "corrupt.7z" []
        = PyOutcome.normal ["Error extracting corrupt.7z"] [] ∧
    extract_archive libC3 "stuck.7z" [] = PyOutcome.raised "TypeError" [] [] := by
  decide

/-- Folding `cons` over the entries prepends them in reverse order. -/
theorem foldl_cons_eq_reverse_append (cwd entries : List (String × String)) :
    entries.foldl (fun m e => e :: m) cwd = entries.reverse ++ cwd := by
  induction entries generalizing cwd with
  | nil => rfl
  | cons e rest ih =>
      simp [List.foldl_cons, ih, List.append_assoc]

/-- Looking a key up in a block with no duplicate keys finds its value, also
with anything appended behind the block. -/
theorem lookup_append_of_mem_nodup :
    ∀ (l rear : List (String × String)) (n c : String),
      (n, c) ∈ l → (l.map Prod.fst).Nodup → (l ++ rear).lookup n = some c := by
  intro l
  induction l with
  | nil =>
      intro rear n c h _
      exact absurd h (List.not_mem_nil _)
  | cons e rest ih =>
      intro rear n c hmem hnd
      obtain ⟨m, v⟩ := e
      rw [List.cons_append]
      by_cases heq : n = m
      · subst heq
        have hv : v = c := by
          rcases List.mem_cons.mp hmem with h1 | h2
          · exact (Prod.mk.injEq _ _ _ _ ▸ h1.symm).2
          · exfalso
            have : n ∈ rest.map Prod.fst := List.mem_map_of_mem Prod.fst h2
            exact (List.nodup_cons.mp hnd).1 this
        simp [List.lookup, hv]
      · have hmem2 : (n, c) ∈ rest := by
          rcases List.mem_cons.mp hmem with h1 | h2
          · exact absurd (congrArg Prod.fst h1) heq
          · exact h2
        have hne : (n == m) = false := beq_false_of_ne heq
        simp only [List.lookup, hne]
        exact ih rear n c hmem2 (List.nodup_cons.mp hnd).2

/-- C6: on an archive that opens and extracts successfully, `extract_archive`
returns normally with no message and the resulting working directory holds
every entry of the archive at its own relative path with its content — the
archive's internal folder structure is reproduced. -/
theorem extract_archive_extracts_all (lib : String → OpenResult) (archive : String)
    (cwd entries : List (String × String))
    (h : lib archive = OpenResult.opened (ExtractallResult.extracted entries))
    (hnd : (entries.map Prod.fst).Nodup) :
    ∃ cwd2, extract_archive lib archive cwd = PyOutcome.normal [] cwd2 ∧
      ∀ n c, (n, c) ∈ entries → cwd2.lookup n = some c := by
  refine ⟨entries.foldl (fun m e => e :: m) cwd, ?_, ?_⟩
  · simp only [extract_archive, h]
  · intro n c hmem
    rw [foldl_cons_eq_reverse_append]
    apply lookup_append_of_mem_nodup
    · exact List.mem_reverse.mpr hmem
    · rw [List.map_reverse]
      exact List.nodup_reverse.mpr hnd

/-- Archive outcomes for the C6 witness: `good.zip` opens and extracts two
entries, one inside an internal folder. -/
def libC6 : String → OpenResult := fun p =>
  if p = "good.zip" then
    OpenResult.opened (ExtractallResult.extracted
      [("Games/a.iso", "DATA"), ("readme.txt", "HI")])
  else OpenResult.openError

/-- Witness for C6 on `good.zip`. -/
theorem extract_archive_extracts_all_witness :
    ∃ cwd2, extract_archive libC6 "good.zip" [] = PyOutcome.normal [] cwd2 ∧
      ∀ n c, (n, c) ∈ [(("Games/a.iso" : String), ("DATA" : String)), ("readme.txt", "HI")] →
        cwd2.lookup n = some c :=
  extract_archive_extracts_all libC6 "good.zip" []
    [("Games/a.iso", "DATA"), ("readme.txt", "HI")] (by decide) (by decide)

/-- C7: every operation `search_path_for_discs` issues is read-only — in the
archive branch only the open-for-read and `getnames()` listing happen, never
`extractall` or a file write. -/
theorem search_path_for_discs_no_writes (fs : String → FileObj) (path : String)
    (op : FsOp) (hop : op ∈ searchOps fs path) : FsOp.writes op = false := by
  rcases h : fs path with t | entries | _
  · simp only [searchOps, h, List.mem_cons, List.not_mem_nil, or_false] at hop
    rcases hop with rfl | rfl <;> rfl
  · by_cases ha : hasArchiveSuffix path
    · simp only [searchOps, h, ha, if_true, List.mem_append, List.mem_cons,
        List.not_mem_nil, or_false] at hop
      rcases hop with (rfl | rfl) | (rfl | rfl) <;> rfl
    · simp [searchOps, h, ha] at hop
      rcases hop with rfl | rfl <;> rfl
  · simp only [searchOps, h, List.mem_cons, List.not_mem_nil, or_false] at hop
    rcases hop with rfl | rfl <;> rfl

/-- A filesystem with the archive file `b.zip` listing one entry. -/
def fsC7 : String → FileObj := fun p =>
  if p = "b.zip" then FileObj.file ["c.iso"] else FileObj.missing

/-- Witness for C7: the `getnames()` listing issued on `b.zip` is not a
write. -/
theorem search_path_for_discs_no_writes_witness :
    FsOp.writes (FsOp.listEntries "b.zip") = false :=
  search_path_for_discs_no_writes fsC7 "b.zip" (FsOp.listEntries "b.zip") (by decide)

/-- C8: on a fixed (pointwise equal) filesystem and archive state, two calls
of `search_path_for_discs` on the same path return the same results. -/
theorem search_path_for_discs_deterministic (fs1 fs2 : String → FileObj)
    (path : String) (h : ∀ q, fs1 q = fs2 q) :
    search_path_for_discs fs1 path = search_path_for_discs fs2 path := by
  rw [show fs1 = fs2 from funext h]

/-- A filesystem with a directory `e` holding one disc image. -/
def fsC8 : String → FileObj := fun p =>
  if p = "e" then FileObj.dir (DirTree.mk ["m.gdi"] []) else FileObj.missing

/-- Witness for C8: two calls on the unchanged state agree. -/
theorem search_path_for_discs_deterministic_witness :
    search_path_for_discs fsC8 "e" = search_path_for_discs fsC8 "e" :=
  search_path_for_discs_deterministic fsC8 fsC8 "e" (fun _ => rfl)

/-- C9: with zero positional arguments the CLI scans the current working
directory, and every invocation prints exactly one summary line — the
"No supported disc files found in …" line when the count is zero, else the
"Found N supported disc files in …" line, with "current directory" or the
literal path argument as the location. -/
theorem cli_prints_one_summary_line (fs : String → FileObj) (cwd : String) :
    (cliMain fs cwd []
        = [if (search_path_for_discs fs cwd).length = 0
           then "No supported disc files found in current directory"
           else "Found " ++ toString (search_path_for_discs fs cwd).length
                  ++ " supported disc files in current directory"]) ∧
    (∀ p rest, cliMain fs cwd (p :: rest)
        = [if (search_path_for_discs fs p).length = 0
           then "No supported disc files found in " ++ p
           else "Found " ++ toString (search_path_for_discs fs p).length
                  ++ " supported disc files in " ++ p]) := by
  constructor
  · by_cases h : (search_path_for_discs fs cwd).length = 0
    · simp [cliMain, h]
    · simp [cliMain, h, Nat.pos_of_ne_zero h]
  · intro p rest
    by_cases h : (search_path_for_discs fs p).length = 0
    · simp [cliMain, h]
    · simp [cliMain, h, Nat.pos_of_ne_zero h]

/-- `os.path.join` only ever appends to its first argument. -/
theorem pathJoin_append_form (a b : String) : ∃ y, pathJoin a b = a ++ y := by
  unfold pathJoin
  split
  · next h => exact ⟨b, by rw [h, String.empty_append]⟩
  · split
    · exact ⟨b, rfl⟩
    · exact ⟨"/" ++ b, String.append_assoc a "/" b⟩

mutual

/-- The containing directory of every file of the subtree of `root` extends
`root`. -/
theorem subtreeFiles_dir_extends (root : String) (t : DirTree) :
    ∀ p ∈ DirTree.subtreeFiles root t, ∃ x, p.1 = root ++ x := by
  match t with
  | .mk files subdirs =>
      intro p hp
      simp only [DirTree.subtreeFiles] at hp
      rcases List.mem_append.mp hp with h1 | h2
      · obtain ⟨f, _, rfl⟩ := List.mem_map.mp h1
        exact ⟨"", (String.append_empty root).symm⟩
      · exact subtreeFilesAll_dir_extends root subdirs p h2

/-- List version of `subtreeFiles_dir_extends` over named subdirectories. -/
theorem subtreeFilesAll_dir_extends (root : String) (l : List (String × DirTree)) :
    ∀ p ∈ DirTree.subtreeFilesAll root l, ∃ x, p.1 = root ++ x := by
  match l with
  | [] =>
      intro p hp
      exact absurd hp (List.not_mem_nil _)
  | (d, t) :: rest =>
      intro p hp
      simp only [DirTree.subtreeFilesAll] at hp
      rcases List.mem_append.mp hp with h1 | h2
      · obtain ⟨x, hx⟩ := subtreeFiles_dir_extends (pathJoin root d) t p h1
        obtain ⟨y, hy⟩ := pathJoin_append_form root d
        exact ⟨y ++ x, by rw [hx, hy, String.append_assoc]⟩
      · exact subtreeFilesAll_dir_extends root rest p h2

end

/-- C10: scanning an existing directory only returns paths below it — the
scanned root is a prefix of every result. -/
theorem search_path_for_discs_results_under_root (fs : String → FileObj)
    (path : String) (t : DirTree) (s : String) (h : fs path = FileObj.dir t)
    (hs : s ∈ search_path_for_discs fs path) :
    ∃ rest, s = path ++ rest := by
  rw [search_dir_eq fs path t h, walk_eq_subtreeFiles path t] at hs
  obtain ⟨p, hp, rfl⟩ := List.mem_map.mp hs
  obtain ⟨x, hx⟩ := subtreeFiles_dir_extends path t p (List.mem_filter.mp hp).1
  obtain ⟨y, hy⟩ := pathJoin_append_form p.1 p.2
  exact ⟨x ++ y, by rw [hy, hx, String.append_assoc]⟩

/-- The directory used to witness C10. -/
def treeC10 : DirTree := DirTree.mk [] [("s", DirTree.mk ["g.iso"] [])]

/-- A filesystem with the directory `top` holding `s/g.iso`. -/
def fsC10 : String → FileObj := fun p =>
  if p = "top" then FileObj.dir treeC10 else FileObj.missing

/-- Witness for C10: the nested result starts with the scanned root. -/
theorem search_path_for_discs_results_under_root_witness :
    ∃ rest, "top/s/g.iso" = "top" ++ rest :=
  search_path_for_discs_results_under_root fsC10 "top" treeC10 "top/s/g.iso"
    rfl (by decide)
